import Mathlib

/-!
# Finalize stage of the dotnet-core buildpack: framework resolution and staging cleanup

Shallow embedding of `src/dotnetcore/finalize/finalize.go`:

* `InstallFrameworks`, `SourceFrameworkVersions`, `FDDFrameworkVersions`
  (classification, version resolution, the two installer requests);
* `CleanStagingArea`, `removeSymlinksTo` (filtered delete of the staging directory).

Collaborators that live outside the file (the project accessor, the installer, the
stager, the operating system) are explicit: the project accessor and the installer are
records of functions, the file system is a finite map from physical paths to nodes in
which path names are resolved through symbolic links, and every call that leaves the
finalizer is appended to a call log, so that statements such as "no install call was
issued" are statements about that log.
-/

namespace Finalize

/-! ## Go values -/

/-- Error value produced outside the finalizer (project accessor, installer, operating
system). -/
structure ExternalError where
  msg : String
  deriving DecidableEq, Repr

/-- Go `error` values that reach the finalizer. An error built by `fmt.Errorf` inside the
finalizer is a fresh value, distinct from whatever a collaborator hands back, hence the
two constructors; `none : Option GoError` is Go's `nil`. -/
inductive GoError where
  | external (e : ExternalError)
  | errorf (msg : String)
  deriving DecidableEq, Repr

/-- The type `libbuildpack.Dependency`. -/
structure Dependency where
  Name : String
  Version : String
  deriving DecidableEq, Repr

/-- Modelled from the spec: the field `RuntimeOptions.Framework` of a parsed runtime
config (declared in package `project`). -/
structure Framework where
  Name : String
  Version : String
  deriving DecidableEq, Repr

/-- Modelled from the spec: the field `RuntimeOptions` of a parsed runtime config
(declared in package `project`). -/
structure RuntimeOptions where
  Framework : Framework
  ApplyPatches : Bool
  deriving DecidableEq, Repr

/-- Modelled from the spec: the record returned by `Project.ParseRuntimeConfig`, whose
declaration is in package `project`; the finalizer reads
`RuntimeOptions.Framework.Name`, `RuntimeOptions.Framework.Version` and
`RuntimeOptions.ApplyPatches` (a boolean). -/
structure ConfigJSON where
  RuntimeOptions : RuntimeOptions
  deriving DecidableEq, Repr

/-! ## Paths: `strings.HasPrefix`, `strings.HasSuffix`, `filepath.Join` -/

/-- Go `strings.HasPrefix s p`. -/
def HasPrefix (s p : String) : Bool :=
  p.toList.isPrefixOf s.toList

/-- Go `strings.HasSuffix s p`. -/
def HasSuffix (s p : String) : Bool :=
  p.toList.isSuffixOf s.toList

/-- Split a path at every separator `/` (empty components are kept). -/
def splitSlash : List Char → List (List Char)
  | [] => [[]]
  | c :: cs =>
    match splitSlash cs with
    | [] => if c = '/' then [[], []] else [[c]]
    | w :: ws => if c = '/' then [] :: w :: ws else (c :: w) :: ws

/-- One component of `filepath.Clean`; `stack` holds the components kept so far, the last
one first. Empty components and `.` are dropped, `..` cancels the component before it,
is dropped at the root, and is kept at the start of a relative path. -/
def cleanStep (rooted : Bool) (stack : List (List Char)) (c : List Char) : List (List Char) :=
  if c = [] ∨ c = ['.'] then stack
  else if c = ['.', '.'] then
    match stack with
    | [] => if rooted then [] else [c]
    | top :: rest => if top = ['.', '.'] then c :: stack else rest
  else c :: stack

/-- Go `filepath.Clean` on a slash-separated path. -/
def Clean (path : String) : String :=
  let cs := path.toList
  let rooted := cs.head? = some '/'
  let stack := (splitSlash cs).foldl (cleanStep rooted) []
  let body := String.mk (List.intercalate ['/'] stack.reverse)
  let out := (if rooted then "/" else "") ++ body
  if out = "" then "." else out

/-- Go `filepath.Join`: leading empty elements are skipped, the rest is joined with `/`
and cleaned; the result is empty when every element is. -/
def Join : List String → String
  | [] => ""
  | e :: es => if e = "" then Join es else Clean (String.intercalate "/" (e :: es))

/-! ## Collaborators and the call log -/

/-- A call that leaves the finalizer, with its arguments. -/
inductive Call where
  | DeploymentType
  | RuntimeConfigFile
  | ParseRuntimeConfig (path : String)
  | FindMatchingFrameworkVersion (name version : String) (applyPatches : Bool)
  | GetVersionFromDepsJSON
  | MainPath
  | VersionFromProjFile (mainPath regex name : String)
  | InstallDependency (dep : Dependency) (outputDir : String)
  | StartCommand
  | Getenv (key : String)
  | FileExists (path : String)
  | RemoveAll (path : String)
  | ReadDir (path : String)
  | Readlink (path : String)
  | Remove (path : String)
  deriving DecidableEq, Repr

/-- The methods of `*project.Project` the finalizer calls. Each answers either a value or
an error. -/
structure Project where
  DeploymentType : Except ExternalError String
  RuntimeConfigFile : Except ExternalError String
  ParseRuntimeConfig : String → Except ExternalError ConfigJSON
  FindMatchingFrameworkVersion : String → String → Bool → Except ExternalError String
  GetVersionFromDepsJSON : Except ExternalError String
  MainPath : Except ExternalError String
  VersionFromProjFile : String → String → String → Except ExternalError String
  StartCommand : Except ExternalError String

/-- The method of the interface `Installer` used by `InstallFrameworks`; `none` is a nil
error. -/
structure Installer where
  InstallDependency : Dependency → String → Option ExternalError

/-- The method of the interface `Stager` used here. -/
structure Stager where
  DepDir : String

/-- The fields of `Finalizer` read by the functions below. -/
structure Finalizer where
  Stager : Stager
  Project : Project
  Installer : Installer

/-- What a function returned, together with the calls it made, in order. -/
structure Run (α : Type) where
  ret : α
  calls : List Call

/-! ## Version resolution -/

/-- The message of the error `FDDFrameworkVersions` builds for a framework name it does
not know. -/
def invalidFrameworkMsg : String :=
  "invalid framework specified in application runtime config file"

/-- `func (f *Finalizer) SourceFrameworkVersions() (string, string, error)`. -/
def SourceFrameworkVersions (f : Finalizer) : Run (String × String × Option GoError) :=
  let t := [Call.MainPath]
  match f.Project.MainPath with
  | .error err => ⟨("", "", some (.external err)), t⟩
  | .ok mainPath =>
    let runtimeRegex := "<RuntimeFrameworkVersion>(*)</RuntimeFrameworkVersion>"
    let aspnetcoreRegex := "\"Microsoft.AspNetCore.All\" Version=\"(.*)\""
    let t := t ++ [Call.VersionFromProjFile mainPath runtimeRegex "dotnet-runtime"]
    match f.Project.VersionFromProjFile mainPath runtimeRegex "dotnet-runtime" with
    | .error err => ⟨("", "", some (.external err)), t⟩
    | .ok runtimeVersion =>
      let t := t ++ [Call.VersionFromProjFile mainPath aspnetcoreRegex "dotnet-aspnetcore"]
      match f.Project.VersionFromProjFile mainPath aspnetcoreRegex "dotnet-aspnetcore" with
      | .error err => ⟨("", "", some (.external err)), t⟩
      | .ok aspnetcoreVersion =>
        -- return runtimeVersion, aspnetcoreVersion, nil
        ⟨(runtimeVersion, aspnetcoreVersion, none), t⟩

/-- The path of the runtime config shipped with the shared web framework of the given
version (the argument of the second `ParseRuntimeConfig` call). -/
def aspnetRuntimeConfigPath (f : Finalizer) (aspnetcoreVersion : String) : String :=
  Join [f.Stager.DepDir, "dotnet-sdk", "shared", "Microsoft.AspNetCore.App",
    aspnetcoreVersion, "Microsoft.AspNetCore.App.runtimeconfig.json"]

/-- `func (f *Finalizer) FDDFrameworkVersions() (string, string, error)`.

The function declares `var aspnetcoreVersion, runtimeVersion string` (both `""`). In the
first branch `aspnetcoreVersion, err := ...` declares a new variable, here
`aspnetcoreVersionInner`, whose scope is the branch; `runtimeVersion, err = ...` assigns
the outer `runtimeVersion`; the final `return aspnetcoreVersion, runtimeVersion, nil`
reads the outer variables. -/
def FDDFrameworkVersions (f : Finalizer) : Run (String × String × Option GoError) :=
  let t := [Call.RuntimeConfigFile]
  match f.Project.RuntimeConfigFile with
  | .error err => ⟨("", "", some (.external err)), t⟩
  | .ok applicationRuntimeConfig =>
    let t := t ++ [Call.ParseRuntimeConfig applicationRuntimeConfig]
    match f.Project.ParseRuntimeConfig applicationRuntimeConfig with
    | .error err => ⟨("", "", some (.external err)), t⟩
    | .ok configJSON =>
      let aspnetcoreVersion := ""
      let frameworkName := configJSON.RuntimeOptions.Framework.Name
      let frameworkVersion := configJSON.RuntimeOptions.Framework.Version
      let applyPatches := configJSON.RuntimeOptions.ApplyPatches
      if frameworkName = "Microsoft.AspNetCore.All" ∨ frameworkName = "Microsoft.AspNetCore.App" then
        let t := t ++ [Call.FindMatchingFrameworkVersion "dotnet-aspnetcore" frameworkVersion applyPatches]
        match f.Project.FindMatchingFrameworkVersion "dotnet-aspnetcore" frameworkVersion applyPatches with
        | .error err => ⟨("", "", some (.external err)), t⟩
        | .ok aspnetcoreVersionInner =>
          let t := t ++ [Call.ParseRuntimeConfig (aspnetRuntimeConfigPath f aspnetcoreVersionInner)]
          match f.Project.ParseRuntimeConfig (aspnetRuntimeConfigPath f aspnetcoreVersionInner) with
          | .error err => ⟨("", "", some (.external err)), t⟩
          | .ok aspnetConfigJSON =>
            let t := t ++ [Call.FindMatchingFrameworkVersion "dotnet-runtime"
              aspnetConfigJSON.RuntimeOptions.Framework.Version applyPatches]
            match f.Project.FindMatchingFrameworkVersion "dotnet-runtime"
              aspnetConfigJSON.RuntimeOptions.Framework.Version applyPatches with
            | .error err => ⟨("", "", some (.external err)), t⟩
            | .ok runtimeVersion => ⟨(aspnetcoreVersion, runtimeVersion, none), t⟩
      else if frameworkName = "Microsoft.NETCore.App" then
        let t := t ++ [Call.FindMatchingFrameworkVersion "dotnet-runtime" frameworkVersion applyPatches]
        match f.Project.FindMatchingFrameworkVersion "dotnet-runtime" frameworkVersion applyPatches with
        | .error err => ⟨("", "", some (.external err)), t⟩
        | .ok runtimeVersion =>
          let t := t ++ [Call.GetVersionFromDepsJSON]
          match f.Project.GetVersionFromDepsJSON with
          | .error err => ⟨("", "", some (.external err)), t⟩
          | .ok aspnetcoreVersion => ⟨(aspnetcoreVersion, runtimeVersion, none), t⟩
      else
        ⟨("", "", some (.errorf invalidFrameworkMsg)), t⟩

/-- The directory both frameworks are installed into, `DepDir/dotnet-sdk`. -/
def sdkDir (f : Finalizer) : String :=
  Join [f.Stager.DepDir, "dotnet-sdk"]

/-- The part of `InstallFrameworks` after resolution: the two installer requests, the web
framework first. -/
def installBoth (f : Finalizer) (aspnetcoreVersion runtimeVersion : String) :
    Run (Option GoError) :=
  let first := Call.InstallDependency ⟨"dotnet-aspnetcore", aspnetcoreVersion⟩ (sdkDir f)
  match f.Installer.InstallDependency ⟨"dotnet-aspnetcore", aspnetcoreVersion⟩ (sdkDir f) with
  | some err => ⟨some (.external err), [first]⟩
  | none =>
    let second := Call.InstallDependency ⟨"dotnet-runtime", runtimeVersion⟩ (sdkDir f)
    match f.Installer.InstallDependency ⟨"dotnet-runtime", runtimeVersion⟩ (sdkDir f) with
    | some err => ⟨some (.external err), [first, second]⟩
    | none => ⟨none, [first, second]⟩

/-- The part of `InstallFrameworks` between classification and installation: the
assignment `aspnetcoreVersion, runtimeVersion, err = ...` of the branch the deployment
type selects. For any other deployment type no branch runs: both variables keep their
zero value `""` and `err` stays `nil`. -/
def resolveVersions (f : Finalizer) (deploymentType : String) :
    Run (String × String × Option GoError) :=
  if deploymentType = "FDD" then FDDFrameworkVersions f
  else if deploymentType = "SOURCE" then SourceFrameworkVersions f
  else ⟨("", "", none), []⟩

/-- `func (f *Finalizer) InstallFrameworks() error`. -/
def InstallFrameworks (f : Finalizer) : Run (Option GoError) :=
  match f.Project.DeploymentType with
  | .error err => ⟨some (.external err), [Call.DeploymentType]⟩
  | .ok deploymentType =>
    match resolveVersions f deploymentType with
    | ⟨(_, _, some err), t⟩ => ⟨some err, Call.DeploymentType :: t⟩
    | ⟨(aspnetcoreVersion, runtimeVersion, none), t⟩ =>
      let r := installBoth f aspnetcoreVersion runtimeVersion
      ⟨r.ret, Call.DeploymentType :: (t ++ r.calls)⟩

/-! ## The staging directory

The file system is a finite map from physical paths (the list of names from the root
down, with no link in it) to nodes, kept as an association list (the first entry of a
path is the one in force); the root is a directory that is always there. A symbolic
link stores the target text `os.Readlink` returns. Path names are resolved as the
operating system does it, one component at a time: a link met on the way is followed, a
relative target is read from the directory that holds the link, `..` goes to the parent
of the directory reached, at most `maxSymlinks` links are followed, and the caller says
whether a link in the last component is followed (`os.Stat`, `os.Open`) or not
(`os.Readlink`, `os.Remove`, `os.RemoveAll`). A relative path name is read from the
root. The operating-system calls of the cleanup are functions of this state and fail
where the state says so. Logging is left out. -/

/-- What a path of the file system holds. -/
inductive Node where
  | dir
  | file
  | symlink (target : String)
  deriving DecidableEq, Repr

/-- True for a node whose mode has `os.ModeSymlink` set. -/
def Node.isSymlink : Node → Bool
  | .symlink _ => true
  | _ => false

/-- The error numbers the calls of the cleanup can meet. -/
inductive Errno where
  | ENOENT
  | ENOTDIR
  | ELOOP
  | EINVAL
  | ENOTEMPTY
  | EBUSY
  deriving DecidableEq, Repr

/-- The text of an error number. -/
def Errno.text : Errno → String
  | .ENOENT => "no such file or directory"
  | .ENOTDIR => "not a directory"
  | .ELOOP => "too many levels of symbolic links"
  | .EINVAL => "invalid argument"
  | .ENOTEMPTY => "directory not empty"
  | .EBUSY => "device or resource busy"

/-- The `*os.PathError` of a failed call. -/
def pathError (op path : String) (e : Errno) : ExternalError :=
  ⟨op ++ " " ++ path ++ ": " ++ e.text⟩

/-- State of the file system: physical path, node. -/
abbrev FS := List (List String × Node)

/-- The node the first entry for the physical path `p` holds. -/
def lookup : FS → List String → Option Node
  | [], _ => none
  | (q, n) :: rest, p => if q = p then some n else lookup rest p

/-- True when the path name `path` lies strictly below the directory `root`, read as
text. -/
def isBelow (root path : String) : Bool :=
  if HasSuffix root "/" then HasPrefix path root && path != root
  else HasPrefix path (root ++ "/")

/-- The names a path name is made of, one per separator-delimited piece (empty pieces are
kept). -/
def components (path : String) : List String :=
  (splitSlash path.toList).map String.mk

/-- The physical path a path name without links, `.` or `..` spells. -/
def physical (path : String) : List String :=
  (components path).filter (fun c => c ≠ "")

/-- The node stored at the physical path `path` spells (no link is followed). -/
def FS.nodeAt (fs : FS) (path : String) : Option Node :=
  lookup fs (physical path)

/-- True for a path name that starts at the root. -/
def isAbs (path : String) : Bool :=
  path.toList.head? = some '/'

/-- How many links one path resolution follows before it fails with `ELOOP`. -/
def maxSymlinks : Nat := 40

/-- Resolution of the names `rest` from the directory `cur`, which answers the physical
path reached and its node. `follow` says whether a link in the last component is
followed, and `onLink` resolves what is left once a link has been entered. -/
def walkAux (fs : FS) (follow : Bool)
    (onLink : List String → List String → Except Errno (List String × Node)) :
    List String → List String → Except Errno (List String × Node)
  | cur, [] => .ok (cur, .dir)
  | cur, comp :: rest =>
    if comp = "" ∨ comp = "." then walkAux fs follow onLink cur rest
    else if comp = ".." then walkAux fs follow onLink cur.dropLast rest
    else
      match lookup fs (cur ++ [comp]) with
      | none => .error .ENOENT
      | some .dir => walkAux fs follow onLink (cur ++ [comp]) rest
      | some .file => if rest = [] then .ok (cur ++ [comp], .file) else .error .ENOTDIR
      | some (.symlink target) =>
        if rest = [] ∧ follow = false then .ok (cur ++ [comp], .symlink target)
        else if target = "" then .error .ENOENT
        else onLink (if isAbs target then [] else cur) (components target ++ rest)

/-- Resolution that may still follow `links` links. -/
def walk (fs : FS) (follow : Bool) :
    Nat → List String → List String → Except Errno (List String × Node)
  | 0 => walkAux fs follow (fun _ _ => .error .ELOOP)
  | links + 1 => walkAux fs follow (walk fs follow links)

/-- Resolution of a path name: the physical path it names and the node there. -/
def resolve (fs : FS) (follow : Bool) (path : String) : Except Errno (List String × Node) :=
  if path = "" then .error .ENOENT else walk fs follow maxSymlinks [] (components path)

/-- The call `libbuildpack.FileExists path`, an `os.Stat` that follows links: true when
the path resolves, false when it does not exist, an error otherwise. -/
def FileExists (fs : FS) (path : String) : Except ExternalError Bool :=
  match resolve fs true path with
  | .ok _ => .ok true
  | .error .ENOENT => .ok false
  | .error e => .error (pathError "stat" path e)

/-- The call `os.RemoveAll path`: what `path` names, itself not followed when it is a
link, is removed with everything below it; it does not fail when `path` does not
exist. -/
def RemoveAll (fs : FS) (path : String) : Except ExternalError FS :=
  match resolve fs false path with
  | .error .ENOENT => .ok fs
  | .error e => .error (pathError "unlinkat" path e)
  | .ok (p, _) =>
    if p = [] then .error (pathError "unlinkat" path .EBUSY)
    else .ok (fs.filter (fun e => !(p.isPrefixOf e.1)))

/-- The entries directly inside the directory at the physical path `p`, as (file name,
node) pairs. -/
def children (fs : FS) (p : List String) : List (String × Node) :=
  fs.filterMap (fun e =>
    match e.1.reverse with
    | name :: parent => if parent.reverse = p then some (name, e.2) else none
    | [] => none)

/-- Order of file names: lexicographic by code point. -/
def nameLe : List Char → List Char → Bool
  | [], _ => true
  | _ :: _, [] => false
  | a :: as, b :: bs => a.toNat < b.toNat || (a.toNat = b.toNat && nameLe as bs)

/-- Insert a directory entry into a list sorted by file name. -/
def insertByName (e : String × Node) : List (String × Node) → List (String × Node)
  | [] => [e]
  | x :: xs => if nameLe e.1.toList x.1.toList then e :: x :: xs else x :: insertByName e xs

/-- Sort directory entries by file name. -/
def sortByName : List (String × Node) → List (String × Node)
  | [] => []
  | e :: es => insertByName e (sortByName es)

/-- The call `ioutil.ReadDir dirname`: `dirname` is opened, following links, and the
entries of the directory it names are answered sorted by file name, each with the mode of
the entry itself. -/
def ReadDir (fs : FS) (dirname : String) : Except ExternalError (List (String × Node)) :=
  match resolve fs true dirname with
  | .error e => .error (pathError "open" dirname e)
  | .ok (p, .dir) => .ok (sortByName (children fs p))
  | .ok _ => .error (pathError "readdirent" dirname .ENOTDIR)

/-- The call `os.Readlink name`. -/
def Readlink (fs : FS) (name : String) : Except ExternalError String :=
  match resolve fs false name with
  | .error e => .error (pathError "readlink" name e)
  | .ok (_, .symlink target) => .ok target
  | .ok _ => .error (pathError "readlink" name .EINVAL)

/-- The call `os.Remove name`: removes a file, a link or an empty directory. -/
def Remove (fs : FS) (name : String) : Except ExternalError FS :=
  match resolve fs false name with
  | .error e => .error (pathError "remove" name e)
  | .ok (p, n) =>
    if p = [] then .error (pathError "remove" name .EBUSY)
    else if n = .dir ∧ children fs p ≠ [] then .error (pathError "remove" name .ENOTEMPTY)
    else .ok (fs.filter (fun e => !(e.1 = p)))

/-- What a cleanup function returned, the state it left, and the calls it made. -/
structure Effect where
  err : Option GoError
  fs : FS
  calls : List Call

/-- The state `later` comes from `earlier` by removals only: every physical path holds
what it held, or nothing. -/
def Shrinks (earlier later : FS) : Prop :=
  ∀ p, lookup later p = lookup earlier p ∨ lookup later p = none

/-! ## Staging cleanup -/

/-- The inner loop of `removeSymlinksTo`, `for _, file := range files`, for the listing of
`DepDir/name`. -/
def removeLinksIn (f : Finalizer) (dir name : String) : List (String × Node) → FS → Effect
  | [], fs => ⟨none, fs, []⟩
  | file :: files, fs =>
    if file.2.isSymlink then
      let source := Join [f.Stager.DepDir, name, file.1]
      match Readlink fs source with
      | .error err => ⟨some (.external err), fs, [Call.Readlink source]⟩
      | .ok target =>
        if HasPrefix target dir then
          match Remove fs source with
          | .error err => ⟨some (.external err), fs, [Call.Readlink source, Call.Remove source]⟩
          | .ok fs1 =>
            let r := removeLinksIn f dir name files fs1
            ⟨r.err, r.fs, Call.Readlink source :: Call.Remove source :: r.calls⟩
        else
          let r := removeLinksIn f dir name files fs
          ⟨r.err, r.fs, Call.Readlink source :: r.calls⟩
    else removeLinksIn f dir name files fs

/-- The outer loop of `removeSymlinksTo`, `for _, name := range []string{"bin", "lib"}`,
over the names still to visit. -/
def removeLinksUnder (f : Finalizer) (dir : String) : List String → FS → Effect
  | [], fs => ⟨none, fs, []⟩
  | name :: names, fs =>
    let listed := Join [f.Stager.DepDir, name]
    match ReadDir fs listed with
    | .error err => ⟨some (.external err), fs, [Call.ReadDir listed]⟩
    | .ok files =>
      let r := removeLinksIn f dir name files fs
      match r.err with
      | some err => ⟨some err, r.fs, Call.ReadDir listed :: r.calls⟩
      | none =>
        let r2 := removeLinksUnder f dir names r.fs
        ⟨r2.err, r2.fs, Call.ReadDir listed :: (r.calls ++ r2.calls)⟩

/-- `func (f *Finalizer) removeSymlinksTo(dir string) error`. -/
def removeSymlinksTo (f : Finalizer) (dir : String) (fs : FS) : Effect :=
  removeLinksUnder f dir ["bin", "lib"] fs

/-- The slice `dirsToRemove` of `CleanStagingArea` once the start command and the value of
`INSTALL_NODE` are known. -/
def dirsToRemove (startCmd installNode : String) : List String :=
  let dirs := ["nuget", ".nuget", ".local", ".cache", ".config", ".npm"]
  let dirs := if !(HasSuffix startCmd ".dll") then dirs ++ ["dotnet-sdk"] else dirs
  let dirs := if installNode ≠ "true" then dirs ++ ["node"] else dirs
  dirs

/-- The loop `for _, dir := range dirsToRemove` of `CleanStagingArea`. -/
def cleanDirs (f : Finalizer) : List String → FS → Effect
  | [], fs => ⟨none, fs, []⟩
  | dir :: dirs, fs =>
    let path := Join [f.Stager.DepDir, dir]
    match FileExists fs path with
    | .error err => ⟨some (.external err), fs, [Call.FileExists path]⟩
    | .ok found =>
      if found then
        match RemoveAll fs path with
        | .error err => ⟨some (.external err), fs, [Call.FileExists path, Call.RemoveAll path]⟩
        | .ok fs1 =>
          let r := removeSymlinksTo f path fs1
          match r.err with
          | some err => ⟨some err, r.fs, Call.FileExists path :: Call.RemoveAll path :: r.calls⟩
          | none =>
            let r2 := cleanDirs f dirs r.fs
            ⟨r2.err, r2.fs, Call.FileExists path :: Call.RemoveAll path :: (r.calls ++ r2.calls)⟩
      else
        let r2 := cleanDirs f dirs fs
        ⟨r2.err, r2.fs, Call.FileExists path :: r2.calls⟩

/-- `func (f *Finalizer) CleanStagingArea() error`; `getenv` is `os.Getenv`. -/
def CleanStagingArea (f : Finalizer) (getenv : String → String) (fs : FS) : Effect :=
  match f.Project.StartCommand with
  | .error err => ⟨some (.external err), fs, [Call.StartCommand]⟩
  | .ok startCmd =>
    let r := cleanDirs f (dirsToRemove startCmd (getenv "INSTALL_NODE")) fs
    ⟨r.err, r.fs, Call.StartCommand :: Call.Getenv "INSTALL_NODE" :: r.calls⟩

/-! ## Reading the call log -/

/-- The error inside an answer, if it is one. -/
def errorOf {α : Type} : Except ExternalError α → Option ExternalError
  | .error e => some e
  | .ok _ => none

/-- The error the project accessor answers to a logged call; `none` when the call
succeeds and for calls that are not the project accessor's. -/
def Project.failure (p : Project) : Call → Option ExternalError
  | .DeploymentType => errorOf p.DeploymentType
  | .RuntimeConfigFile => errorOf p.RuntimeConfigFile
  | .ParseRuntimeConfig path => errorOf (p.ParseRuntimeConfig path)
  | .FindMatchingFrameworkVersion name version applyPatches =>
    errorOf (p.FindMatchingFrameworkVersion name version applyPatches)
  | .GetVersionFromDepsJSON => errorOf p.GetVersionFromDepsJSON
  | .MainPath => errorOf p.MainPath
  | .VersionFromProjFile mainPath regex name => errorOf (p.VersionFromProjFile mainPath regex name)
  | _ => none

/-- True for an `InstallDependency` call. -/
def Call.isInstall : Call → Bool
  | .InstallDependency _ _ => true
  | _ => false

/-- True for a `FindMatchingFrameworkVersion` call. -/
def Call.isFindMatching : Call → Bool
  | .FindMatchingFrameworkVersion _ _ _ => true
  | _ => false

/-- True for a call that changes the staging directory (`os.RemoveAll`, `os.Remove`). -/
def Call.isDelete : Call → Bool
  | .RemoveAll _ => true
  | .Remove _ => true
  | _ => false

/-- True for a call that lists a directory (`ioutil.ReadDir`). -/
def Call.isScan : Call → Bool
  | .ReadDir _ => true
  | _ => false

/-! ## Sample projects -/

/-- A runtime config declaring the given framework with patches allowed. -/
def sampleConfig (name version : String) : ConfigJSON :=
  ⟨⟨⟨name, version⟩, true⟩⟩

/-- A project accessor for which every call succeeds: the application runtime config
`app.runtimeconfig.json` declares `frameworkName` at `frameworkVersion`, the runtime
config of the shared web framework declares `Microsoft.NETCore.App` 2.1.2, the resolver
answers 2.1.5 for `dotnet-aspnetcore`, and for `dotnet-runtime` 3.1.5 when 3.1.0 is
requested and 2.1.6 otherwise, the pinned dependency manifest says 2.2.0, and the project file yields 5.0.2 for the runtime pattern
and 2.1.3 for the web-framework pattern. -/
def sampleProject (deploymentType frameworkName frameworkVersion : String) : Project where
  DeploymentType := .ok deploymentType
  RuntimeConfigFile := .ok "app.runtimeconfig.json"
  ParseRuntimeConfig := fun path =>
    if path = "app.runtimeconfig.json" then .ok (sampleConfig frameworkName frameworkVersion)
    else .ok (sampleConfig "Microsoft.NETCore.App" "2.1.2")
  FindMatchingFrameworkVersion := fun name version _ =>
    if name = "dotnet-aspnetcore" then .ok "2.1.5"
    else if version = "3.1.0" then .ok "3.1.5" else .ok "2.1.6"
  GetVersionFromDepsJSON := .ok "2.2.0"
  MainPath := .ok "app.csproj"
  VersionFromProjFile := fun _ _ name =>
    if name = "dotnet-runtime" then .ok "5.0.2" else .ok "2.1.3"
  StartCommand := .ok "/home/vcap/app/app.dll"

/-- A finalizer over `sampleProject` with dependency directory `/deps/0` and an installer
that accepts every request. -/
def sampleFinalizer (deploymentType frameworkName frameworkVersion : String) : Finalizer where
  Stager := ⟨"/deps/0"⟩
  Project := sampleProject deploymentType frameworkName frameworkVersion
  Installer := ⟨fun _ _ => none⟩

/-- The sample project with a runtime config that does not parse. -/
def malformedConfigFinalizer : Finalizer where
  Stager := ⟨"/deps/0"⟩
  Project :=
    { sampleProject "FDD" "Microsoft.NETCore.App" "3.1.0" with
      ParseRuntimeConfig := fun _ => .error ⟨"unexpected end of JSON input"⟩ }
  Installer := ⟨fun _ _ => none⟩

/-- The sample SOURCE project with an installer that rejects the runtime request. -/
def runtimeInstallFailsFinalizer : Finalizer where
  Stager := ⟨"/deps/0"⟩
  Project := sampleProject "SOURCE" "" ""
  Installer := ⟨fun dep _ =>
    if dep.Name = "dotnet-runtime" then some ⟨"could not install dotnet-runtime"⟩ else none⟩

/-- A staging directory under `/deps/0`: the directories `bin` and `lib`, a NuGet cache,
the installed `dotnet-sdk` and `node` trees, a `node_modules` tree next to `node`, the
publish output, and three links in `bin`, one into each of `dotnet-sdk`, `node` and
`node_modules`. -/
def sampleStaging : FS :=
  [(physical "/deps", .dir), (physical "/deps/0", .dir),
   (physical "/deps/0/bin", .dir), (physical "/deps/0/lib", .dir),
   (physical "/deps/0/.nuget", .dir), (physical "/deps/0/.nuget/packages", .dir),
   (physical "/deps/0/dotnet-sdk", .dir), (physical "/deps/0/dotnet-sdk/dotnet", .file),
   (physical "/deps/0/node", .dir), (physical "/deps/0/node/bin", .dir),
   (physical "/deps/0/node/bin/node", .file),
   (physical "/deps/0/node_modules", .dir), (physical "/deps/0/node_modules/tsc", .file),
   (physical "/deps/0/dotnet_publish", .dir), (physical "/deps/0/dotnet_publish/app.dll", .file),
   (physical "/deps/0/bin/dotnet", .symlink "/deps/0/dotnet-sdk/dotnet"),
   (physical "/deps/0/bin/node", .symlink "/deps/0/node/bin/node"),
   (physical "/deps/0/bin/tsc", .symlink "/deps/0/node_modules/tsc")]

/-- The sample staging directory once `/deps/0/node` and everything below it is deleted. -/
def sampleStagingWithoutNode : FS :=
  [(physical "/deps", .dir), (physical "/deps/0", .dir),
   (physical "/deps/0/bin", .dir), (physical "/deps/0/lib", .dir),
   (physical "/deps/0/.nuget", .dir), (physical "/deps/0/.nuget/packages", .dir),
   (physical "/deps/0/dotnet-sdk", .dir), (physical "/deps/0/dotnet-sdk/dotnet", .file),
   (physical "/deps/0/node_modules", .dir), (physical "/deps/0/node_modules/tsc", .file),
   (physical "/deps/0/dotnet_publish", .dir), (physical "/deps/0/dotnet_publish/app.dll", .file),
   (physical "/deps/0/bin/dotnet", .symlink "/deps/0/dotnet-sdk/dotnet"),
   (physical "/deps/0/bin/node", .symlink "/deps/0/node/bin/node"),
   (physical "/deps/0/bin/tsc", .symlink "/deps/0/node_modules/tsc")]

/-- A staging directory with links in the way: `bin` is a link to the directory `tools`,
`lib` is a directory, the NuGet cache `.nuget` is present, `node` is a link whose target
does not exist, `.cache` is a link to the directory `/var/cache`, and `tools` holds three
links, one into `.nuget` (with a relative target and with an absolute one) and one into
`node`. -/
def linkedStaging : FS :=
  [(physical "/deps", .dir), (physical "/deps/0", .dir),
   (physical "/var", .dir), (physical "/var/cache", .dir), (physical "/var/cache/keep", .file),
   (physical "/deps/0/bin", .symlink "tools"), (physical "/deps/0/tools", .dir),
   (physical "/deps/0/lib", .dir),
   (physical "/deps/0/.nuget", .dir), (physical "/deps/0/.nuget/nuget", .file),
   (physical "/deps/0/node", .symlink "/opt/node-v10"),
   (physical "/deps/0/.cache", .symlink "/var/cache"),
   (physical "/deps/0/tools/nuget", .symlink "/deps/0/.nuget/nuget"),
   (physical "/deps/0/tools/nuget-rel", .symlink "../.nuget/nuget"),
   (physical "/deps/0/tools/n", .symlink "/deps/0/node/bin/node")]

/-- An environment in which no variable is set: `os.Getenv` answers the empty string. -/
def emptyEnv : String → String :=
  fun _ => ""

/-! ## Version resolution: theorems -/

/-- C1: for an FDD project whose runtime config names `Microsoft.AspNetCore.All` or
`Microsoft.AspNetCore.App`, when every collaborator call succeeds, both resolver calls are
made with the same patch flag and the runtime version is the resolver's answer for the
version the resolved web framework declares, but the web-framework version returned is
the empty string, not the resolver's answer `w`. -/
theorem FDDFrameworkVersions_aspnetcore (f : Finalizer) (path w r : String)
    (cfg nested : ConfigJSON)
    (hfile : f.Project.RuntimeConfigFile = .ok path)
    (hparse : f.Project.ParseRuntimeConfig path = .ok cfg)
    (hname : cfg.RuntimeOptions.Framework.Name = "Microsoft.AspNetCore.All" ∨
      cfg.RuntimeOptions.Framework.Name = "Microsoft.AspNetCore.App")
    (hweb : f.Project.FindMatchingFrameworkVersion "dotnet-aspnetcore"
      cfg.RuntimeOptions.Framework.Version cfg.RuntimeOptions.ApplyPatches = .ok w)
    (hnested : f.Project.ParseRuntimeConfig (aspnetRuntimeConfigPath f w) = .ok nested)
    (hrun : f.Project.FindMatchingFrameworkVersion "dotnet-runtime"
      nested.RuntimeOptions.Framework.Version cfg.RuntimeOptions.ApplyPatches = .ok r) :
    (FDDFrameworkVersions f).ret = ("", r, none) ∧
    (FDDFrameworkVersions f).calls =
      [Call.RuntimeConfigFile, Call.ParseRuntimeConfig path,
       Call.FindMatchingFrameworkVersion "dotnet-aspnetcore"
         cfg.RuntimeOptions.Framework.Version cfg.RuntimeOptions.ApplyPatches,
       Call.ParseRuntimeConfig (aspnetRuntimeConfigPath f w),
       Call.FindMatchingFrameworkVersion "dotnet-runtime"
         nested.RuntimeOptions.Framework.Version cfg.RuntimeOptions.ApplyPatches] := by
  simp [FDDFrameworkVersions, hfile, hparse, hname, hweb, hnested, hrun]

/-- C1 at a concrete project: `Microsoft.AspNetCore.App` 2.1.0 with patches allowed, the
resolver answering 2.1.5 for the web framework and 2.1.6 for the runtime. The pair
returned is `("", "2.1.6")`, where the specification expects `("2.1.5", "2.1.6")`. -/
theorem FDDFrameworkVersions_aspnetcore_sample :
    (FDDFrameworkVersions (sampleFinalizer "FDD" "Microsoft.AspNetCore.App" "2.1.0")).ret
      = ("", "2.1.6", none) :=
  (FDDFrameworkVersions_aspnetcore (sampleFinalizer "FDD" "Microsoft.AspNetCore.App" "2.1.0")
    "app.runtimeconfig.json" "2.1.5" "2.1.6"
    (sampleConfig "Microsoft.AspNetCore.App" "2.1.0") (sampleConfig "Microsoft.NETCore.App" "2.1.2")
    rfl rfl (Or.inr rfl) rfl rfl rfl).1

/-- C2 at the scenario of the specification: the project file yields 5.0.2 for the
`RuntimeFrameworkVersion` pattern and 2.1.3 for the web-framework pattern. No
`FindMatchingFrameworkVersion` call is made, but `SourceFrameworkVersions` returns the
runtime version first, `("5.0.2", "2.1.3")`, and `InstallFrameworks` requests
`dotnet-aspnetcore` 5.0.2 and `dotnet-runtime` 2.1.3. -/
theorem SourceFrameworkVersions_sample_swapped :
    (SourceFrameworkVersions (sampleFinalizer "SOURCE" "" "")).ret = ("5.0.2", "2.1.3", none) ∧
    (SourceFrameworkVersions (sampleFinalizer "SOURCE" "" "")).calls.filter Call.isFindMatching = [] ∧
    (InstallFrameworks (sampleFinalizer "SOURCE" "" "")).calls.filter Call.isInstall =
      [Call.InstallDependency ⟨"dotnet-aspnetcore", "5.0.2"⟩ "/deps/0/dotnet-sdk",
       Call.InstallDependency ⟨"dotnet-runtime", "2.1.3"⟩ "/deps/0/dotnet-sdk"] := by
  decide

/-- C3: for an FDD project whose runtime config names `Microsoft.NETCore.App` with version
`V` and patch flag `p`, when every collaborator call succeeds, the pair returned is
`(w, r)` with `r` the resolver's answer for `("dotnet-runtime", V, p)` and `w` the string
`GetVersionFromDepsJSON` returned; the only resolver call is the one for the runtime. -/
theorem FDDFrameworkVersions_netcore (f : Finalizer) (path w r : String) (cfg : ConfigJSON)
    (hfile : f.Project.RuntimeConfigFile = .ok path)
    (hparse : f.Project.ParseRuntimeConfig path = .ok cfg)
    (hname : cfg.RuntimeOptions.Framework.Name = "Microsoft.NETCore.App")
    (hrun : f.Project.FindMatchingFrameworkVersion "dotnet-runtime"
      cfg.RuntimeOptions.Framework.Version cfg.RuntimeOptions.ApplyPatches = .ok r)
    (hdeps : f.Project.GetVersionFromDepsJSON = .ok w) :
    (FDDFrameworkVersions f).ret = (w, r, none) ∧
    (FDDFrameworkVersions f).calls =
      [Call.RuntimeConfigFile, Call.ParseRuntimeConfig path,
       Call.FindMatchingFrameworkVersion "dotnet-runtime"
         cfg.RuntimeOptions.Framework.Version cfg.RuntimeOptions.ApplyPatches,
       Call.GetVersionFromDepsJSON] ∧
    (FDDFrameworkVersions f).calls.filter Call.isFindMatching =
      [Call.FindMatchingFrameworkVersion "dotnet-runtime"
         cfg.RuntimeOptions.Framework.Version cfg.RuntimeOptions.ApplyPatches] := by
  simp [FDDFrameworkVersions, hfile, hparse, hname, hrun, hdeps, Call.isFindMatching]

/-- C3 at the scenario of the specification: `Microsoft.NETCore.App` 3.1.0 with patches
allowed and a resolver that answers 3.1.5; the runtime version is 3.1.5 and the
web-framework version is the manifest's 2.2.0. -/
theorem FDDFrameworkVersions_netcore_sample :
    (FDDFrameworkVersions (sampleFinalizer "FDD" "Microsoft.NETCore.App" "3.1.0")).ret
      = ("2.2.0", "3.1.5", none) :=
  (FDDFrameworkVersions_netcore (sampleFinalizer "FDD" "Microsoft.NETCore.App" "3.1.0")
    "app.runtimeconfig.json" "2.2.0" "3.1.5" (sampleConfig "Microsoft.NETCore.App" "3.1.0")
    rfl rfl rfl rfl rfl).1

/-- C4: once the application runtime config is parsed, a framework name other than
`Microsoft.AspNetCore.All`, `Microsoft.AspNetCore.App` and `Microsoft.NETCore.App` makes
`FDDFrameworkVersions` return two empty strings and the unsupported-framework error after
the two calls that read the config, so no resolver call and no manifest read is made;
conversely that error is returned only when the config was parsed and names no known
framework. -/
theorem FDDFrameworkVersions_unsupported (f : Finalizer) :
    (∀ path cfg, f.Project.RuntimeConfigFile = .ok path →
      f.Project.ParseRuntimeConfig path = .ok cfg →
      cfg.RuntimeOptions.Framework.Name ≠ "Microsoft.AspNetCore.All" →
      cfg.RuntimeOptions.Framework.Name ≠ "Microsoft.AspNetCore.App" →
      cfg.RuntimeOptions.Framework.Name ≠ "Microsoft.NETCore.App" →
      (FDDFrameworkVersions f).ret = ("", "", some (.errorf invalidFrameworkMsg)) ∧
      (FDDFrameworkVersions f).calls = [Call.RuntimeConfigFile, Call.ParseRuntimeConfig path]) ∧
    (∀ a r msg, (FDDFrameworkVersions f).ret = (a, r, some (.errorf msg)) →
      ∃ path cfg, f.Project.RuntimeConfigFile = .ok path ∧
        f.Project.ParseRuntimeConfig path = .ok cfg ∧
        cfg.RuntimeOptions.Framework.Name ≠ "Microsoft.AspNetCore.All" ∧
        cfg.RuntimeOptions.Framework.Name ≠ "Microsoft.AspNetCore.App" ∧
        cfg.RuntimeOptions.Framework.Name ≠ "Microsoft.NETCore.App") := by
  constructor
  · intro path cfg hfile hparse h1 h2 h3
    simp [FDDFrameworkVersions, hfile, hparse, h1, h2, h3]
  · intro a r msg h
    unfold FDDFrameworkVersions at h
    cases hfile : f.Project.RuntimeConfigFile with
    | error e => simp [hfile] at h
    | ok path =>
      cases hparse : f.Project.ParseRuntimeConfig path with
      | error e => simp [hfile, hparse] at h
      | ok cfg =>
        refine ⟨path, cfg, rfl, hparse, ?_⟩
        simp only [hfile, hparse] at h
        split at h
        · exfalso
          split at h
          · simp at h
          · split at h
            · simp at h
            · split at h <;> simp at h
        · rename_i hweb
          split at h
          · exfalso
            split at h
            · simp at h
            · split at h <;> simp at h
          · rename_i hrun
            exact ⟨fun h1 => hweb (Or.inl h1), fun h2 => hweb (Or.inr h2), hrun⟩

/-- C4 at a name that differs from a known one only in case. -/
theorem FDDFrameworkVersions_unsupported_sample :
    (FDDFrameworkVersions (sampleFinalizer "FDD" "microsoft.netcore.app" "3.1.0")).ret
      = ("", "", some (.errorf invalidFrameworkMsg)) ∧
    (FDDFrameworkVersions (sampleFinalizer "FDD" "microsoft.netcore.app" "3.1.0")).calls
      = [Call.RuntimeConfigFile, Call.ParseRuntimeConfig "app.runtimeconfig.json"] :=
  (FDDFrameworkVersions_unsupported (sampleFinalizer "FDD" "microsoft.netcore.app" "3.1.0")).1
    "app.runtimeconfig.json" (sampleConfig "microsoft.netcore.app" "3.1.0") rfl rfl
    (by decide) (by decide) (by decide)

/-- C5 at the deployment type `SCD`: neither branch of `InstallFrameworks` runs, both
versions keep their zero value, and the installer is asked for `dotnet-aspnetcore` and
`dotnet-runtime` with an empty version; with an installer that accepts the requests
`InstallFrameworks` returns nil. -/
theorem InstallFrameworks_other_deployment_type_installs_empty :
    (InstallFrameworks (sampleFinalizer "SCD" "" "")).ret = none ∧
    (InstallFrameworks (sampleFinalizer "SCD" "" "")).calls =
      [Call.DeploymentType,
       Call.InstallDependency ⟨"dotnet-aspnetcore", ""⟩ "/deps/0/dotnet-sdk",
       Call.InstallDependency ⟨"dotnet-runtime", ""⟩ "/deps/0/dotnet-sdk"] := by
  decide

/-- Resolution for a SOURCE project makes no installer call, and a call of it that fails
is its last one: the error returned is that call's error. -/
theorem SourceFrameworkVersions_log (f : Finalizer) :
    (SourceFrameworkVersions f).calls.filter Call.isInstall = [] ∧
    ∀ c ∈ (SourceFrameworkVersions f).calls, ∀ e, f.Project.failure c = some e →
      (SourceFrameworkVersions f).ret.2.2 = some (.external e) := by
  cases hmain : f.Project.MainPath with
  | error err => simp [SourceFrameworkVersions, Project.failure, errorOf, Call.isInstall, hmain]
  | ok mainPath =>
    cases hrun : f.Project.VersionFromProjFile mainPath
        "<RuntimeFrameworkVersion>(*)</RuntimeFrameworkVersion>" "dotnet-runtime" with
    | error err =>
      simp [SourceFrameworkVersions, Project.failure, errorOf, Call.isInstall, hmain, hrun]
    | ok runtimeVersion =>
      cases hweb : f.Project.VersionFromProjFile mainPath
          "\"Microsoft.AspNetCore.All\" Version=\"(.*)\"" "dotnet-aspnetcore" with
      | error err =>
        simp [SourceFrameworkVersions, Project.failure, errorOf, Call.isInstall, hmain, hrun, hweb]
      | ok aspnetcoreVersion =>
        simp [SourceFrameworkVersions, Project.failure, errorOf, Call.isInstall, hmain, hrun, hweb]

/-- Resolution for an FDD project makes no installer call, and a call of it that fails is
its last one: the error returned is that call's error. -/
theorem FDDFrameworkVersions_log (f : Finalizer) :
    (FDDFrameworkVersions f).calls.filter Call.isInstall = [] ∧
    ∀ c ∈ (FDDFrameworkVersions f).calls, ∀ e, f.Project.failure c = some e →
      (FDDFrameworkVersions f).ret.2.2 = some (.external e) := by
  cases hfile : f.Project.RuntimeConfigFile with
  | error err => simp [FDDFrameworkVersions, Project.failure, errorOf, Call.isInstall, hfile]
  | ok path =>
    cases hparse : f.Project.ParseRuntimeConfig path with
    | error err =>
      simp [FDDFrameworkVersions, Project.failure, errorOf, Call.isInstall, hfile, hparse]
    | ok cfg =>
      by_cases hname : cfg.RuntimeOptions.Framework.Name = "Microsoft.AspNetCore.All" ∨
          cfg.RuntimeOptions.Framework.Name = "Microsoft.AspNetCore.App"
      · cases hweb : f.Project.FindMatchingFrameworkVersion "dotnet-aspnetcore"
            cfg.RuntimeOptions.Framework.Version cfg.RuntimeOptions.ApplyPatches with
        | error err =>
          simp [FDDFrameworkVersions, Project.failure, errorOf, Call.isInstall, hfile, hparse,
            hname, hweb]
        | ok w =>
          cases hnested : f.Project.ParseRuntimeConfig (aspnetRuntimeConfigPath f w) with
          | error err =>
            simp [FDDFrameworkVersions, Project.failure, errorOf, Call.isInstall, hfile, hparse,
              hname, hweb, hnested]
          | ok nested =>
            cases hrun : f.Project.FindMatchingFrameworkVersion "dotnet-runtime"
                nested.RuntimeOptions.Framework.Version cfg.RuntimeOptions.ApplyPatches with
            | error err =>
              simp [FDDFrameworkVersions, Project.failure, errorOf, Call.isInstall, hfile,
                hparse, hname, hweb, hnested, hrun]
            | ok r =>
              simp [FDDFrameworkVersions, Project.failure, errorOf, Call.isInstall, hfile,
                hparse, hname, hweb, hnested, hrun]
      · by_cases hcore : cfg.RuntimeOptions.Framework.Name = "Microsoft.NETCore.App"
        · cases hrun : f.Project.FindMatchingFrameworkVersion "dotnet-runtime"
              cfg.RuntimeOptions.Framework.Version cfg.RuntimeOptions.ApplyPatches with
          | error err =>
            simp [FDDFrameworkVersions, Project.failure, errorOf, Call.isInstall, hfile, hparse,
              hname, hcore, hrun]
          | ok r =>
            cases hdeps : f.Project.GetVersionFromDepsJSON with
            | error err =>
              simp [FDDFrameworkVersions, Project.failure, errorOf, Call.isInstall, hfile,
                hparse, hname, hcore, hrun, hdeps]
            | ok w =>
              simp [FDDFrameworkVersions, Project.failure, errorOf, Call.isInstall, hfile,
                hparse, hname, hcore, hrun, hdeps]
        · simp [FDDFrameworkVersions, Project.failure, errorOf, Call.isInstall, hfile, hparse,
            hname, hcore]

/-- The resolution step of `InstallFrameworks` makes no installer call, and a call of it
that fails is the error it returns. -/
theorem resolveVersions_log (f : Finalizer) (d : String) :
    (resolveVersions f d).calls.filter Call.isInstall = [] ∧
    ∀ c ∈ (resolveVersions f d).calls, ∀ e, f.Project.failure c = some e →
      (resolveVersions f d).ret.2.2 = some (.external e) := by
  unfold resolveVersions
  split
  · exact FDDFrameworkVersions_log f
  · split
    · exact SourceFrameworkVersions_log f
    · simp

/-- The installation step logs installer calls only. -/
theorem installBoth_calls (f : Finalizer) (a r : String) :
    (installBoth f a r).calls.filter Call.isInstall = (installBoth f a r).calls ∧
    ∀ c ∈ (installBoth f a r).calls, f.Project.failure c = none := by
  unfold installBoth
  split
  · simp [Call.isInstall, Project.failure]
  · split <;> simp [Call.isInstall, Project.failure]

/-- `InstallFrameworks` when classification fails. -/
theorem InstallFrameworks_of_classification_error (f : Finalizer) (err : ExternalError)
    (hd : f.Project.DeploymentType = .error err) :
    InstallFrameworks f = ⟨some (.external err), [Call.DeploymentType]⟩ := by
  simp [InstallFrameworks, hd]

/-- `InstallFrameworks` when resolution fails. -/
theorem InstallFrameworks_of_resolution_error (f : Finalizer) (d a r : String) (err : GoError)
    (hd : f.Project.DeploymentType = .ok d)
    (hres : (resolveVersions f d).ret = (a, r, some err)) :
    InstallFrameworks f = ⟨some err, Call.DeploymentType :: (resolveVersions f d).calls⟩ := by
  unfold InstallFrameworks
  simp only [hd]
  cases hrun : resolveVersions f d with
  | mk ret t =>
    rw [hrun] at hres
    simp only at hres
    subst hres
    rfl

/-- `InstallFrameworks` when resolution succeeds. -/
theorem InstallFrameworks_of_resolved (f : Finalizer) (d a r : String)
    (hd : f.Project.DeploymentType = .ok d)
    (hres : (resolveVersions f d).ret = (a, r, none)) :
    InstallFrameworks f =
      ⟨(installBoth f a r).ret,
        Call.DeploymentType :: ((resolveVersions f d).calls ++ (installBoth f a r).calls)⟩ := by
  unfold InstallFrameworks
  simp only [hd]
  cases hrun : resolveVersions f d with
  | mk ret t =>
    rw [hrun] at hres
    simp only at hres
    subst hres
    rfl

/-- C6: if a call the project accessor receives during classification or resolution fails
with `e`, then `InstallFrameworks` returns exactly `e` and the installer receives no
`InstallDependency` call. -/
theorem InstallFrameworks_propagates_failure (f : Finalizer) (c : Call) (e : ExternalError)
    (hc : c ∈ (InstallFrameworks f).calls) (he : f.Project.failure c = some e) :
    (InstallFrameworks f).ret = some (.external e) ∧
    (InstallFrameworks f).calls.filter Call.isInstall = [] := by
  cases hd : f.Project.DeploymentType with
  | error err =>
    rw [InstallFrameworks_of_classification_error f err hd] at hc ⊢
    simp only [List.mem_singleton] at hc
    subst hc
    simp [Project.failure, errorOf, hd] at he
    simp [he, Call.isInstall]
  | ok d =>
    have hlog := resolveVersions_log f d
    have hfirst : f.Project.failure Call.DeploymentType = none := by
      simp [Project.failure, errorOf, hd]
    rcases hret : (resolveVersions f d).ret with ⟨a, r, oerr⟩
    cases oerr with
    | some err =>
      rw [InstallFrameworks_of_resolution_error f d a r err hd hret] at hc ⊢
      simp only [List.mem_cons] at hc
      rcases hc with hc | hc
      · subst hc
        rw [hfirst] at he
        cases he
      · have h := hlog.2 c hc e he
        rw [hret] at h
        simp only [Option.some.injEq] at h
        simp [h, hlog.1, Call.isInstall]
    | none =>
      exfalso
      rw [InstallFrameworks_of_resolved f d a r hd hret] at hc
      simp only [List.mem_cons, List.mem_append] at hc
      rcases hc with hc | hc | hc
      · subst hc
        rw [hfirst] at he
        cases he
      · have h := hlog.2 c hc e he
        rw [hret] at h
        cases h
      · rw [(installBoth_calls f a r).2 c hc] at he
        cases he

/-- C6 at a malformed application runtime config: `InstallFrameworks` returns the parse
error and no install call is issued. -/
theorem InstallFrameworks_malformed_config :
    (InstallFrameworks malformedConfigFinalizer).ret
      = some (.external ⟨"unexpected end of JSON input"⟩) ∧
    (InstallFrameworks malformedConfigFinalizer).calls.filter Call.isInstall = [] :=
  InstallFrameworks_propagates_failure malformedConfigFinalizer
    (Call.ParseRuntimeConfig "app.runtimeconfig.json") ⟨"unexpected end of JSON input"⟩
    (by decide) rfl

/-- C7: when resolution succeeds with the pair `(a, r)`, the installer calls made are a
leading part of the web-framework request for `a` followed by the runtime request for
`r`, both into `DepDir/dotnet-sdk`. If the first request fails its error is returned and
it is the only request; otherwise both requests are made and a failure of the second is
returned; nil is returned exactly when both requests were made and both succeeded. -/
theorem InstallFrameworks_install_order (f : Finalizer) (d a r : String)
    (hd : f.Project.DeploymentType = .ok d)
    (hres : (d = "FDD" ∧ (FDDFrameworkVersions f).ret = (a, r, none)) ∨
      (d = "SOURCE" ∧ (SourceFrameworkVersions f).ret = (a, r, none))) :
    (InstallFrameworks f).calls.filter Call.isInstall <+:
      [Call.InstallDependency ⟨"dotnet-aspnetcore", a⟩ (Join [f.Stager.DepDir, "dotnet-sdk"]),
       Call.InstallDependency ⟨"dotnet-runtime", r⟩ (Join [f.Stager.DepDir, "dotnet-sdk"])] ∧
    (∀ e, f.Installer.InstallDependency ⟨"dotnet-aspnetcore", a⟩
        (Join [f.Stager.DepDir, "dotnet-sdk"]) = some e →
      (InstallFrameworks f).ret = some (.external e) ∧
      (InstallFrameworks f).calls.filter Call.isInstall =
        [Call.InstallDependency ⟨"dotnet-aspnetcore", a⟩ (Join [f.Stager.DepDir, "dotnet-sdk"])]) ∧
    (f.Installer.InstallDependency ⟨"dotnet-aspnetcore", a⟩
        (Join [f.Stager.DepDir, "dotnet-sdk"]) = none →
      (InstallFrameworks f).calls.filter Call.isInstall =
        [Call.InstallDependency ⟨"dotnet-aspnetcore", a⟩ (Join [f.Stager.DepDir, "dotnet-sdk"]),
         Call.InstallDependency ⟨"dotnet-runtime", r⟩ (Join [f.Stager.DepDir, "dotnet-sdk"])] ∧
      ∀ e, f.Installer.InstallDependency ⟨"dotnet-runtime", r⟩
          (Join [f.Stager.DepDir, "dotnet-sdk"]) = some e →
        (InstallFrameworks f).ret = some (.external e)) ∧
    ((InstallFrameworks f).ret = none ↔
      (InstallFrameworks f).calls.filter Call.isInstall =
        [Call.InstallDependency ⟨"dotnet-aspnetcore", a⟩ (Join [f.Stager.DepDir, "dotnet-sdk"]),
         Call.InstallDependency ⟨"dotnet-runtime", r⟩ (Join [f.Stager.DepDir, "dotnet-sdk"])] ∧
      f.Installer.InstallDependency ⟨"dotnet-aspnetcore", a⟩
        (Join [f.Stager.DepDir, "dotnet-sdk"]) = none ∧
      f.Installer.InstallDependency ⟨"dotnet-runtime", r⟩
        (Join [f.Stager.DepDir, "dotnet-sdk"]) = none) := by
  have hret : (resolveVersions f d).ret = (a, r, none) := by
    rcases hres with ⟨rfl, h⟩ | ⟨rfl, h⟩
    · simpa [resolveVersions] using h
    · simpa [resolveVersions] using h
  have hmade : (InstallFrameworks f).calls.filter Call.isInstall = (installBoth f a r).calls := by
    rw [InstallFrameworks_of_resolved f d a r hd hret]
    simp [Call.isInstall, (resolveVersions_log f d).1, (installBoth_calls f a r).1]
  have hout : (InstallFrameworks f).ret = (installBoth f a r).ret := by
    rw [InstallFrameworks_of_resolved f d a r hd hret]
  rw [hmade, hout]
  unfold installBoth sdkDir
  cases hweb : f.Installer.InstallDependency ⟨"dotnet-aspnetcore", a⟩
      (Join [f.Stager.DepDir, "dotnet-sdk"]) with
  | some e1 => simp [List.prefix_cons_inj]
  | none =>
    cases hrun : f.Installer.InstallDependency ⟨"dotnet-runtime", r⟩
        (Join [f.Stager.DepDir, "dotnet-sdk"]) with
    | some e2 => simp
    | none => simp

/-- C7 for the sample SOURCE project with an installer that accepts the web-framework
request and rejects the runtime request. -/
theorem InstallFrameworks_install_order_sample :
    (InstallFrameworks runtimeInstallFailsFinalizer).calls.filter Call.isInstall =
      [Call.InstallDependency ⟨"dotnet-aspnetcore", "5.0.2"⟩ "/deps/0/dotnet-sdk",
       Call.InstallDependency ⟨"dotnet-runtime", "2.1.3"⟩ "/deps/0/dotnet-sdk"] ∧
    (InstallFrameworks runtimeInstallFailsFinalizer).ret
      = some (.external ⟨"could not install dotnet-runtime"⟩) :=
  ⟨((InstallFrameworks_install_order runtimeInstallFailsFinalizer "SOURCE" "5.0.2" "2.1.3" rfl
      (Or.inr ⟨rfl, rfl⟩)).2.2.1 rfl).1,
   ((InstallFrameworks_install_order runtimeInstallFailsFinalizer "SOURCE" "5.0.2" "2.1.3" rfl
      (Or.inr ⟨rfl, rfl⟩)).2.2.1 rfl).2 _ rfl⟩

/-! ## Paths: lemmas -/

/-- Dropping the entries of the paths `g` rejects: a kept path holds what it held, a
dropped one holds nothing. -/
theorem lookup_filter_key (fs : FS) (g : List String → Bool) (p : List String) :
    lookup (fs.filter (fun e => g e.1)) p = if g p = true then lookup fs p else none := by
  induction fs with
  | nil => simp [lookup]
  | cons e rest ih =>
    obtain ⟨q, n⟩ := e
    by_cases hq : q = p
    · subst hq
      cases hg : g q with
      | true => simp [List.filter, hg, lookup]
      | false =>
        rw [hg] at ih
        simp [List.filter, hg, ih]
    · cases hg : g q with
      | true => simp [List.filter, hg, lookup, hq, ih]
      | false => simp [List.filter, hg, lookup, hq, ih]

/-- Every state comes from itself by removals only. -/
theorem Shrinks.refl (fs : FS) : Shrinks fs fs :=
  fun _ => Or.inl rfl

/-- Removals after removals are removals. -/
theorem Shrinks.trans {a b c : FS} (hab : Shrinks a b) (hbc : Shrinks b c) : Shrinks a c := by
  intro p
  rcases hbc p with h | h
  · rcases hab p with h' | h'
    · exact Or.inl (h.trans h')
    · exact Or.inr (h.trans h')
  · exact Or.inr h

/-- Dropping entries by their path is a removal. -/
theorem Shrinks_filter (fs : FS) (g : List String → Bool) :
    Shrinks fs (fs.filter (fun e => g e.1)) := by
  intro p
  rw [lookup_filter_key]
  cases g p
  · exact Or.inr (by simp)
  · exact Or.inl (by simp)

/-- After removals one step of path resolution answers what it answered or fails with
`ENOENT`, provided the same holds once a link is entered. -/
theorem walkAux_shrink {fs fs' : FS} (h : Shrinks fs fs') (follow : Bool)
    (onLink onLink' : List String → List String → Except Errno (List String × Node))
    (hlink : ∀ c r, onLink' c r = onLink c r ∨ onLink' c r = .error .ENOENT) :
    ∀ rest cur, walkAux fs' follow onLink' cur rest = walkAux fs follow onLink cur rest ∨
      walkAux fs' follow onLink' cur rest = .error .ENOENT := by
  intro rest
  induction rest with
  | nil => intro cur; exact Or.inl rfl
  | cons comp rest ih =>
    intro cur
    simp only [walkAux]
    by_cases h1 : comp = "" ∨ comp = "."
    · simp only [h1, if_true]
      exact ih cur
    · by_cases h2 : comp = ".."
      · simp only [h1, h2, if_true, if_false]
        exact ih _
      · simp only [h1, h2, if_false]
        rcases h (cur ++ [comp]) with heq | hnone
        · rw [heq]
          cases hl : lookup fs (cur ++ [comp]) with
          | none => exact Or.inl rfl
          | some n =>
            cases n with
            | dir => exact ih _
            | file => exact Or.inl rfl
            | symlink t =>
              simp only
              by_cases h3 : rest = [] ∧ follow = false
              · simp only [h3, and_self, if_true]
                exact Or.inl trivial
              · simp only [h3, if_false]
                by_cases h4 : t = ""
                · simp only [h4, if_true]
                  exact Or.inl trivial
                · simp only [h4, if_false]
                  exact hlink _ _
        · rw [hnone]
          exact Or.inr rfl

/-- After removals a path resolution answers what it answered or fails with `ENOENT`. -/
theorem walk_shrink {fs fs' : FS} (h : Shrinks fs fs') (follow : Bool) :
    ∀ links cur rest, walk fs' follow links cur rest = walk fs follow links cur rest ∨
      walk fs' follow links cur rest = .error .ENOENT := by
  intro links
  induction links with
  | zero =>
    intro cur rest
    exact walkAux_shrink h follow _ _ (fun _ _ => Or.inl rfl) rest cur
  | succ n ih =>
    intro cur rest
    exact walkAux_shrink h follow _ _ (fun c r => ih c r) rest cur

/-- A step of path resolution that fails without following the last component fails the
same way when it follows it. -/
theorem walkAux_follow_of_error (fs : FS)
    (onF onT : List String → List String → Except Errno (List String × Node))
    (hlink : ∀ c r e, onF c r = .error e → onT c r = .error e) :
    ∀ rest cur e, walkAux fs false onF cur rest = .error e →
      walkAux fs true onT cur rest = .error e := by
  intro rest
  induction rest with
  | nil => intro cur e h; simp [walkAux] at h
  | cons comp rest ih =>
    intro cur e
    simp only [walkAux]
    by_cases h1 : comp = "" ∨ comp = "."
    · simp only [h1, if_true]
      exact ih cur e
    · by_cases h2 : comp = ".."
      · simp only [h1, h2, if_true, if_false]
        exact ih _ e
      · simp only [h1, h2, if_false]
        cases hl : lookup fs (cur ++ [comp]) with
        | none => exact id
        | some n =>
          cases n with
          | dir => exact ih _ e
          | file => exact id
          | symlink t =>
            simp only
            by_cases h3 : rest = []
            · simp only [h3, true_and, if_true]
              intro h
              cases h
            · simp only [h3, false_and, if_false, Bool.true_eq_false, and_false]
              by_cases h4 : t = ""
              · simp only [h4, if_true]
                exact id
              · simp only [h4, if_false]
                exact hlink _ _ e

/-- A path resolution that fails without following the last component fails the same way
when it follows it. -/
theorem walk_follow_of_error (fs : FS) :
    ∀ links cur rest e, walk fs false links cur rest = .error e →
      walk fs true links cur rest = .error e := by
  intro links
  induction links with
  | zero =>
    intro cur rest e
    exact walkAux_follow_of_error fs _ _ (fun _ _ _ h => h) rest cur e
  | succ n ih =>
    intro cur rest e
    exact walkAux_follow_of_error fs _ _ (fun c r e h => ih c r e h) rest cur e

/-- A step of path resolution that answers a link found that link at the path it
answers. -/
theorem walkAux_symlink (fs : FS) (follow : Bool)
    (onLink : List String → List String → Except Errno (List String × Node))
    (hlink : ∀ c r p t, onLink c r = .ok (p, .symlink t) → lookup fs p = some (.symlink t)) :
    ∀ rest cur p t, walkAux fs follow onLink cur rest = .ok (p, .symlink t) →
      lookup fs p = some (.symlink t) := by
  intro rest
  induction rest with
  | nil => intro cur p t h; simp [walkAux] at h
  | cons comp rest ih =>
    intro cur p t
    simp only [walkAux]
    by_cases h1 : comp = "" ∨ comp = "."
    · simp only [h1, if_true]
      exact ih cur p t
    · by_cases h2 : comp = ".."
      · simp only [h1, h2, if_true, if_false]
        exact ih _ p t
      · simp only [h1, h2, if_false]
        cases hl : lookup fs (cur ++ [comp]) with
        | none => intro h; cases h
        | some n =>
          cases n with
          | dir => exact ih _ p t
          | file =>
            simp only
            split
            · intro h; simp at h
            · intro h; cases h
          | symlink t' =>
            simp only
            by_cases h3 : rest = [] ∧ follow = false
            · simp only [h3, and_self, if_true]
              intro h
              simp only [Except.ok.injEq, Prod.mk.injEq, Node.symlink.injEq] at h
              obtain ⟨rfl, rfl⟩ := h
              exact hl
            · simp only [h3, if_false]
              by_cases h4 : t' = ""
              · simp only [h4, if_true]
                intro h; cases h
              · simp only [h4, if_false]
                exact hlink _ _ p t

/-- A path resolution that answers a link found that link at the path it answers. -/
theorem walk_symlink (fs : FS) (follow : Bool) :
    ∀ links cur rest p t, walk fs follow links cur rest = .ok (p, .symlink t) →
      lookup fs p = some (.symlink t) := by
  intro links
  induction links with
  | zero =>
    intro cur rest p t
    exact walkAux_symlink fs follow _ (fun _ _ _ _ h => by cases h) rest cur p t
  | succ n ih =>
    intro cur rest p t
    exact walkAux_symlink fs follow _ (fun c r p t h => ih c r p t h) rest cur p t

/-- Once the path a resolution answered is gone, the same resolution, with or without
following the last component, fails with `ENOENT`: one step. `cur` is the directory
reached so far, none of whose ancestors is gone. -/
theorem walkAux_removed {fs fs' : FS} (h : Shrinks fs fs') (P : List String)
    (hP : lookup fs' P = none) (hne : P ≠ []) (follow : Bool)
    (onLink onLink' : List String → List String → Except Errno (List String × Node))
    (hlink : ∀ c r n, (∀ q, q <+: c → q ≠ [] → lookup fs' q ≠ none) →
      onLink c r = .ok (P, n) → onLink' c r = .error .ENOENT) :
    ∀ rest cur n, (∀ q, q <+: cur → q ≠ [] → lookup fs' q ≠ none) →
      walkAux fs false onLink cur rest = .ok (P, n) →
      walkAux fs' follow onLink' cur rest = .error .ENOENT := by
  intro rest
  induction rest with
  | nil =>
    intro cur n hcur hw
    simp only [walkAux, Except.ok.injEq, Prod.mk.injEq] at hw
    obtain ⟨rfl, _⟩ := hw
    exact absurd hP (hcur cur (List.prefix_refl _) hne)
  | cons comp rest ih =>
    intro cur n hcur
    simp only [walkAux]
    by_cases h1 : comp = "" ∨ comp = "."
    · simp only [h1, if_true]
      exact ih cur n hcur
    · by_cases h2 : comp = ".."
      · simp only [h1, h2, if_true, if_false]
        refine ih _ n ?_
        intro q hq
        exact hcur q (hq.trans (List.dropLast_prefix cur))
      · simp only [h1, h2, if_false]
        rcases h (cur ++ [comp]) with heq | hnone
        · rw [heq]
          cases hl : lookup fs (cur ++ [comp]) with
          | none => intro hw; cases hw
          | some m =>
            have hthere : lookup fs' (cur ++ [comp]) ≠ none := by
              rw [heq, hl]
              exact Option.some_ne_none m
            cases m with
            | dir =>
              refine ih _ n ?_
              intro q hq hqne
              rcases List.prefix_concat_iff.mp hq with rfl | hq'
              · exact hthere
              · exact hcur q hq' hqne
            | file =>
              simp only
              split
              · intro hw
                simp only [Except.ok.injEq, Prod.mk.injEq] at hw
                obtain ⟨rfl, _⟩ := hw
                exact absurd hP hthere
              · intro hw; cases hw
            | symlink t =>
              simp only
              by_cases h3 : rest = []
              · simp only [h3, true_and, if_true]
                intro hw
                simp only [Except.ok.injEq, Prod.mk.injEq] at hw
                obtain ⟨rfl, _⟩ := hw
                exact absurd hP hthere
              · simp only [h3, false_and, if_false]
                by_cases h4 : t = ""
                · simp only [h4, if_true]
                  intro hw; cases hw
                · simp only [h4, if_false]
                  refine hlink _ _ n ?_
                  intro q hq hqne
                  split at hq
                  · exact absurd (List.prefix_nil.mp hq) hqne
                  · exact hcur q hq hqne
        · rw [hnone]
          intro _
          rfl

/-- Once the path a resolution answered is gone, the same resolution, with or without
following the last component, fails with `ENOENT`. -/
theorem walk_removed {fs fs' : FS} (h : Shrinks fs fs') (P : List String)
    (hP : lookup fs' P = none) (hne : P ≠ []) (follow : Bool) :
    ∀ links cur rest n, (∀ q, q <+: cur → q ≠ [] → lookup fs' q ≠ none) →
      walk fs false links cur rest = .ok (P, n) →
      walk fs' follow links cur rest = .error .ENOENT := by
  intro links
  induction links with
  | zero =>
    intro cur rest n hcur
    exact walkAux_removed h P hP hne follow _ _ (fun _ _ _ _ hw => by cases hw) rest cur n hcur
  | succ k ih =>
    intro cur rest n hcur
    exact walkAux_removed h P hP hne follow _ _ (fun c r n hc hw => ih c r n hc hw) rest cur n hcur

/-- After removals a path name resolves as it did or does not exist. -/
theorem resolve_shrink {fs fs' : FS} (h : Shrinks fs fs') (follow : Bool) (path : String) :
    resolve fs' follow path = resolve fs follow path ∨
      resolve fs' follow path = .error .ENOENT := by
  unfold resolve
  split
  · exact Or.inl rfl
  · exact walk_shrink h follow _ _ _

/-- `libbuildpack.FileExists` answers false exactly when the path does not exist. -/
theorem FileExists_eq_false_iff (fs : FS) (path : String) :
    FileExists fs path = .ok false ↔ resolve fs true path = .error .ENOENT := by
  unfold FileExists
  cases hr : resolve fs true path with
  | ok v => simp
  | error e => cases e <;> simp

/-- A path that does not exist still does not exist after removals. -/
theorem FileExists_false_of_shrink {fs fs' : FS} (h : Shrinks fs fs') (path : String)
    (hf : FileExists fs path = .ok false) : FileExists fs' path = .ok false := by
  rw [FileExists_eq_false_iff] at hf ⊢
  rcases resolve_shrink h true path with h' | h'
  · rw [h', hf]
  · exact h'

/-- A successful `os.RemoveAll path` only removes, what it removes lies at or below what
`path` named, and `path` does not exist afterwards. -/
theorem RemoveAll_ok (fs fs1 : FS) (path : String) (h : RemoveAll fs path = .ok fs1) :
    Shrinks fs fs1 ∧ FileExists fs1 path = .ok false ∧
    ∀ k, lookup fs1 k = lookup fs k ∨
      ∃ P m, resolve fs false path = .ok (P, m) ∧ P <+: k := by
  unfold RemoveAll at h
  cases hr : resolve fs false path with
  | error e =>
    rw [hr] at h
    cases e with
    | ENOENT =>
      simp only [Except.ok.injEq] at h
      subst h
      refine ⟨Shrinks.refl _, ?_, fun k => Or.inl rfl⟩
      rw [FileExists_eq_false_iff]
      unfold resolve at hr ⊢
      split
      · rfl
      · rename_i hp
        simp only [hp, if_false] at hr
        exact walk_follow_of_error fs _ _ _ _ hr
    | _ => cases h
  | ok v =>
    obtain ⟨P, m⟩ := v
    rw [hr] at h
    simp only at h
    by_cases hroot : P = []
    · simp [hroot] at h
    · simp only [hroot, if_false, Except.ok.injEq] at h
      subst h
      have hsh : Shrinks fs (fs.filter (fun e => !(P.isPrefixOf e.1))) :=
        Shrinks_filter fs (fun k => !(P.isPrefixOf k))
      have hgone : lookup (fs.filter (fun e => !(P.isPrefixOf e.1))) P = none := by
        rw [lookup_filter_key fs (fun k => !(P.isPrefixOf k)) P]
        simp
      refine ⟨hsh, ?_, ?_⟩
      · rw [FileExists_eq_false_iff]
        unfold resolve at hr ⊢
        split
        · rfl
        · rename_i hp
          simp only [hp, if_false] at hr
          refine walk_removed hsh P hgone hroot true _ [] _ m ?_ hr
          intro q hq hqne
          exact absurd (List.prefix_nil.mp hq) hqne
      · intro k
        rw [lookup_filter_key fs (fun k => !(P.isPrefixOf k)) k]
        by_cases hk : P <+: k
        · exact Or.inr ⟨P, m, rfl, hk⟩
        · left
          have : P.isPrefixOf k = false := by
            rw [Bool.eq_false_iff]
            intro hc
            exact hk (List.isPrefixOf_iff_prefix.mp hc)
          simp [this]

/-- A successful `os.Readlink name` read a link that is stored where `name` resolves. -/
theorem Readlink_ok (fs : FS) (name target : String) (h : Readlink fs name = .ok target) :
    ∃ p, resolve fs false name = .ok (p, .symlink target) ∧
      lookup fs p = some (.symlink target) := by
  unfold Readlink at h
  cases hr : resolve fs false name with
  | error e => rw [hr] at h; cases h
  | ok v =>
    obtain ⟨p, n⟩ := v
    rw [hr] at h
    cases n with
    | dir => cases h
    | file => cases h
    | symlink t =>
      simp only [Except.ok.injEq] at h
      subst h
      refine ⟨p, rfl, ?_⟩
      unfold resolve at hr
      split at hr
      · cases hr
      · exact walk_symlink fs false _ _ _ p t hr

/-- A successful `os.Remove name` only removes, and removes nothing but what `name`
named. -/
theorem Remove_ok (fs fs1 : FS) (name : String) (h : Remove fs name = .ok fs1) :
    Shrinks fs fs1 ∧
    ∃ p n, resolve fs false name = .ok (p, n) ∧ ∀ k, k ≠ p → lookup fs1 k = lookup fs k := by
  unfold Remove at h
  cases hr : resolve fs false name with
  | error e => rw [hr] at h; cases h
  | ok v =>
    obtain ⟨p, n⟩ := v
    rw [hr] at h
    simp only at h
    split at h
    · cases h
    · split at h
      · cases h
      · simp only [Except.ok.injEq] at h
        subst h
        refine ⟨Shrinks_filter fs (fun k => !(k = p)), p, n, rfl, ?_⟩
        intro k hk
        rw [lookup_filter_key fs (fun k => !(k = p)) k]
        simp [hk]

/-! ## Staging cleanup: lemmas -/

/-- The inner loop of `removeSymlinksTo` only removes, and keeps every entry that is not
a symbolic link. -/
theorem removeLinksIn_state (f : Finalizer) (dir name : String) (files : List (String × Node)) :
    ∀ fs : FS,
      Shrinks fs (removeLinksIn f dir name files fs).fs ∧
      (∀ k n, lookup fs k = some n → n.isSymlink = false →
        lookup (removeLinksIn f dir name files fs).fs k = some n) := by
  induction files with
  | nil =>
    intro fs
    simp only [removeLinksIn]
    exact ⟨Shrinks.refl fs, fun _ _ h _ => h⟩
  | cons file files ih =>
    intro fs
    unfold removeLinksIn
    by_cases hmode : file.2.isSymlink = true
    · simp only [hmode, if_true]
      cases hread : Readlink fs (Join [f.Stager.DepDir, name, file.1]) with
      | error err => exact ⟨Shrinks.refl fs, fun _ _ h _ => h⟩
      | ok target =>
        simp only
        by_cases hpre : HasPrefix target dir = true
        · simp only [hpre, if_true]
          cases hrm : Remove fs (Join [f.Stager.DepDir, name, file.1]) with
          | error err => exact ⟨Shrinks.refl fs, fun _ _ h _ => h⟩
          | ok fs1 =>
            simp only
            obtain ⟨hsh, p, m, hres, hkeep⟩ := Remove_ok fs fs1 _ hrm
            obtain ⟨p', hres', hlink⟩ := Readlink_ok fs _ target hread
            rw [hres] at hres'
            simp only [Except.ok.injEq, Prod.mk.injEq] at hres'
            obtain ⟨rfl, rfl⟩ := hres'
            refine ⟨hsh.trans (ih fs1).1, fun k n hk hn => (ih fs1).2 k n ?_ hn⟩
            have hne : k ≠ p := by
              intro heq
              rw [heq, hlink] at hk
              cases hk
              simp [Node.isSymlink] at hn
            rw [hkeep k hne, hk]
        · simp only [hpre, Bool.false_eq_true, if_false]
          exact ih fs
    · simp only [hmode, Bool.false_eq_true, if_false]
      exact ih fs

/-- The outer loop of `removeSymlinksTo` only removes, and keeps every entry that is not
a symbolic link. -/
theorem removeLinksUnder_state (f : Finalizer) (dir : String) (names : List String) :
    ∀ fs : FS,
      Shrinks fs (removeLinksUnder f dir names fs).fs ∧
      (∀ k n, lookup fs k = some n → n.isSymlink = false →
        lookup (removeLinksUnder f dir names fs).fs k = some n) := by
  induction names with
  | nil =>
    intro fs
    simp only [removeLinksUnder]
    exact ⟨Shrinks.refl fs, fun _ _ h _ => h⟩
  | cons name names ih =>
    intro fs
    unfold removeLinksUnder
    simp only
    cases hlist : ReadDir fs (Join [f.Stager.DepDir, name]) with
    | error err => exact ⟨Shrinks.refl fs, fun _ _ h _ => h⟩
    | ok files =>
      simp only
      have hin := removeLinksIn_state f dir name files fs
      cases herr : (removeLinksIn f dir name files fs).err with
      | some err => exact hin
      | none =>
        exact ⟨hin.1.trans (ih _).1, fun k n hk hn => (ih _).2 k n (hin.2 k n hk hn) hn⟩

/-- The cleanup loop only removes. -/
theorem cleanDirs_shrinks (f : Finalizer) (dirs : List String) :
    ∀ fs : FS, Shrinks fs (cleanDirs f dirs fs).fs := by
  induction dirs with
  | nil => intro fs; exact Shrinks.refl fs
  | cons dir dirs ih =>
    intro fs
    unfold cleanDirs
    simp only
    cases hex : FileExists fs (Join [f.Stager.DepDir, dir]) with
    | error err => exact Shrinks.refl fs
    | ok found =>
      simp only
      cases found with
      | false =>
        simp only [Bool.false_eq_true, if_false]
        exact ih fs
      | true =>
        simp only [if_true]
        cases hrm : RemoveAll fs (Join [f.Stager.DepDir, dir]) with
        | error err => exact Shrinks.refl fs
        | ok fs1 =>
          simp only
          have h1 := (RemoveAll_ok fs fs1 _ hrm).1
          have h2 := (removeLinksUnder_state f (Join [f.Stager.DepDir, dir]) ["bin", "lib"] fs1).1
          cases herr : (removeSymlinksTo f (Join [f.Stager.DepDir, dir]) fs1).err with
          | some err => exact h1.trans h2
          | none => exact (h1.trans h2).trans (ih _)

/-- After a successful cleanup loop none of the directories it was given exists. -/
theorem cleanDirs_absent (f : Finalizer) (dirs : List String) :
    ∀ fs : FS, (cleanDirs f dirs fs).err = none →
      ∀ d ∈ dirs, FileExists (cleanDirs f dirs fs).fs (Join [f.Stager.DepDir, d]) = .ok false := by
  induction dirs with
  | nil => intro fs _ d hd; cases hd
  | cons dir dirs ih =>
    intro fs
    unfold cleanDirs
    simp only
    cases hex : FileExists fs (Join [f.Stager.DepDir, dir]) with
    | error err => intro h; cases h
    | ok found =>
      simp only
      cases found with
      | false =>
        simp only [Bool.false_eq_true, if_false]
        intro h d hd
        rcases List.mem_cons.mp hd with rfl | hd
        · exact FileExists_false_of_shrink (cleanDirs_shrinks f dirs fs) _ hex
        · exact ih fs h d hd
      | true =>
        simp only [if_true]
        cases hrm : RemoveAll fs (Join [f.Stager.DepDir, dir]) with
        | error err => intro h; cases h
        | ok fs1 =>
          simp only
          have hgone := (RemoveAll_ok fs fs1 _ hrm).2.1
          have h2 := (removeLinksUnder_state f (Join [f.Stager.DepDir, dir]) ["bin", "lib"] fs1).1
          cases herr : (removeSymlinksTo f (Join [f.Stager.DepDir, dir]) fs1).err with
          | some err => intro h; cases h
          | none =>
            simp only
            intro h d hd
            rcases List.mem_cons.mp hd with rfl | hd
            · exact FileExists_false_of_shrink (h2.trans (cleanDirs_shrinks f dirs _)) _ hgone
            · exact ih _ h d hd

/-- When none of the directories given to the cleanup loop exists, the loop only checks
each of them and changes nothing. -/
theorem cleanDirs_of_absent (f : Finalizer) (dirs : List String) (fs : FS)
    (h : ∀ d ∈ dirs, FileExists fs (Join [f.Stager.DepDir, d]) = .ok false) :
    (cleanDirs f dirs fs).err = none ∧ (cleanDirs f dirs fs).fs = fs ∧
    (cleanDirs f dirs fs).calls =
      dirs.map (fun d => Call.FileExists (Join [f.Stager.DepDir, d])) := by
  induction dirs with
  | nil => simp [cleanDirs]
  | cons dir dirs ih =>
    have hdir := h dir (List.mem_cons_self _ _)
    have ih := ih (fun d hd => h d (List.mem_cons_of_mem _ hd))
    unfold cleanDirs
    simp [hdir, ih]

/-- C8: cleanup is idempotent. If `CleanStagingArea` succeeds, running it again on the
state it left, with the same start command and environment, succeeds, leaves the state
as it is, and makes no `os.RemoveAll` or `os.Remove` call and no `ioutil.ReadDir` call:
after the first run `libbuildpack.FileExists` answers false for every candidate
directory, so the second run makes the two calls that fix the candidates and one
`FileExists` check for each candidate, and nothing else. -/
theorem CleanStagingArea_idempotent (f : Finalizer) (getenv : String → String) (fs : FS)
    (h : (CleanStagingArea f getenv fs).err = none) :
    (CleanStagingArea f getenv (CleanStagingArea f getenv fs).fs).err = none ∧
    (CleanStagingArea f getenv (CleanStagingArea f getenv fs).fs).fs
      = (CleanStagingArea f getenv fs).fs ∧
    (CleanStagingArea f getenv (CleanStagingArea f getenv fs).fs).calls.filter Call.isDelete = [] ∧
    (CleanStagingArea f getenv (CleanStagingArea f getenv fs).fs).calls.filter Call.isScan = [] ∧
    ∃ startCmd, f.Project.StartCommand = .ok startCmd ∧
      (∀ d ∈ dirsToRemove startCmd (getenv "INSTALL_NODE"),
        FileExists (CleanStagingArea f getenv fs).fs (Join [f.Stager.DepDir, d]) = .ok false) ∧
      (CleanStagingArea f getenv (CleanStagingArea f getenv fs).fs).calls =
        Call.StartCommand :: Call.Getenv "INSTALL_NODE" ::
          (dirsToRemove startCmd (getenv "INSTALL_NODE")).map
            (fun d => Call.FileExists (Join [f.Stager.DepDir, d])) := by
  cases hs : f.Project.StartCommand with
  | error err => simp [CleanStagingArea, hs] at h
  | ok startCmd =>
    simp only [CleanStagingArea, hs] at h ⊢
    have habsent := cleanDirs_absent f _ fs h
    obtain ⟨herr, hfs, hcalls⟩ := cleanDirs_of_absent f _ _ habsent
    rw [herr, hfs, hcalls]
    refine ⟨rfl, rfl, ?_, ?_, startCmd, rfl, habsent, rfl⟩
    · simp [Call.isDelete, List.filter_eq_nil_iff]
    · simp [Call.isScan, List.filter_eq_nil_iff]

/-- C8 on a staging directory with links in the way (`bin` is a link to a directory, the
candidate `node` is a link whose target does not exist, the candidate `.cache` is a link
to a directory elsewhere): the first cleanup succeeds and the second one changes
nothing. -/
theorem CleanStagingArea_idempotent_sample :
    (CleanStagingArea (sampleFinalizer "FDD" "Microsoft.NETCore.App" "3.1.0") emptyEnv
      (CleanStagingArea (sampleFinalizer "FDD" "Microsoft.NETCore.App" "3.1.0") emptyEnv
        linkedStaging).fs).fs
      = (CleanStagingArea (sampleFinalizer "FDD" "Microsoft.NETCore.App" "3.1.0") emptyEnv
          linkedStaging).fs :=
  (CleanStagingArea_idempotent (sampleFinalizer "FDD" "Microsoft.NETCore.App" "3.1.0") emptyEnv
    linkedStaging (by decide)).2.1

/-- The cleanup of the staging directory with links in the way, call by call: `.nuget`
is deleted and with it the link `bin/nuget`, read through the link `bin`, whose target
text starts with `/deps/0/.nuget`; the link `.cache` is deleted and the directory it
points to stays; the link `node`, whose target does not exist, is skipped and stays, as
does the link `bin/n` into it; the link `bin/nuget-rel` stays because its target text is
relative. -/
theorem CleanStagingArea_linkedStaging :
    (CleanStagingArea (sampleFinalizer "FDD" "Microsoft.NETCore.App" "3.1.0") emptyEnv
      linkedStaging).err = none ∧
    (CleanStagingArea (sampleFinalizer "FDD" "Microsoft.NETCore.App" "3.1.0") emptyEnv
      linkedStaging).calls =
      [Call.StartCommand, Call.Getenv "INSTALL_NODE",
       Call.FileExists "/deps/0/nuget",
       Call.FileExists "/deps/0/.nuget", Call.RemoveAll "/deps/0/.nuget",
       Call.ReadDir "/deps/0/bin", Call.Readlink "/deps/0/bin/n",
       Call.Readlink "/deps/0/bin/nuget", Call.Remove "/deps/0/bin/nuget",
       Call.Readlink "/deps/0/bin/nuget-rel", Call.ReadDir "/deps/0/lib",
       Call.FileExists "/deps/0/.local",
       Call.FileExists "/deps/0/.cache", Call.RemoveAll "/deps/0/.cache",
       Call.ReadDir "/deps/0/bin", Call.Readlink "/deps/0/bin/n",
       Call.Readlink "/deps/0/bin/nuget-rel", Call.ReadDir "/deps/0/lib",
       Call.FileExists "/deps/0/.config", Call.FileExists "/deps/0/.npm",
       Call.FileExists "/deps/0/node"] ∧
    (CleanStagingArea (sampleFinalizer "FDD" "Microsoft.NETCore.App" "3.1.0") emptyEnv
      linkedStaging).fs =
      [(physical "/deps", .dir), (physical "/deps/0", .dir),
       (physical "/var", .dir), (physical "/var/cache", .dir),
       (physical "/var/cache/keep", .file),
       (physical "/deps/0/bin", .symlink "tools"), (physical "/deps/0/tools", .dir),
       (physical "/deps/0/lib", .dir),
       (physical "/deps/0/node", .symlink "/opt/node-v10"),
       (physical "/deps/0/tools/nuget-rel", .symlink "../.nuget/nuget"),
       (physical "/deps/0/tools/n", .symlink "/deps/0/node/bin/node")] := by
  decide

/-- C10 at a link into a sibling directory: once `/deps/0/node` is deleted,
`removeSymlinksTo` removes the link `/deps/0/bin/tsc`, whose target
`/deps/0/node_modules/tsc` is neither `/deps/0/node` nor below it and still exists; the
whole cleanup of the sample staging directory does the same. -/
theorem removeSymlinksTo_removes_sibling_link :
    RemoveAll sampleStaging "/deps/0/node" = .ok sampleStagingWithoutNode ∧
    sampleStagingWithoutNode.nodeAt "/deps/0/bin/tsc"
      = some (.symlink "/deps/0/node_modules/tsc") ∧
    "/deps/0/node_modules/tsc" ≠ "/deps/0/node" ∧
    isBelow "/deps/0/node" "/deps/0/node_modules/tsc" = false ∧
    (removeSymlinksTo (sampleFinalizer "FDD" "Microsoft.NETCore.App" "3.1.0") "/deps/0/node"
      sampleStagingWithoutNode).err = none ∧
    (removeSymlinksTo (sampleFinalizer "FDD" "Microsoft.NETCore.App" "3.1.0") "/deps/0/node"
      sampleStagingWithoutNode).fs.nodeAt "/deps/0/node_modules/tsc" = some .file ∧
    (removeSymlinksTo (sampleFinalizer "FDD" "Microsoft.NETCore.App" "3.1.0") "/deps/0/node"
      sampleStagingWithoutNode).fs.nodeAt "/deps/0/bin/tsc" = none ∧
    (CleanStagingArea (sampleFinalizer "FDD" "Microsoft.NETCore.App" "3.1.0") emptyEnv
      sampleStaging).fs.nodeAt "/deps/0/bin/tsc" = none :=
  ⟨rfl, by decide, by decide, by decide, by decide, by decide, by decide, by decide⟩

end Finalize
